import Mathlib

/-!
Verification development for a course-schedule reminder bot (`src/bot.py`).

Strings from the Python side are modelled as `List Char`.  The configured
time zone is a fixed-offset zone (the default `Asia/Singapore` has no DST),
so zone-aware datetimes are modelled as plain calendar datetimes and the
instant order is the lexicographic order realised by `instant` below.
External library calls (the JSON decoder `json.loads`, the Telegram
transport, the job queue's clock) are passed in as explicit parameters.
-/

abbrev Str := List Char

/-- Characters matched by Python's `\s` / `str.strip()` (ASCII subset). -/
def pyIsSpace (c : Char) : Bool :=
  c == ' ' || c == '\t' || c == '\n' || c == '\r' || c == '\x0b' || c == '\x0c'

/-- Model of Python `str.lower()` (ASCII letters). -/
def lowerStr (s : Str) : Str := s.map Char.toLower

/-- Model of Python `str.strip()`: drop leading and trailing whitespace. -/
def pyStrip (s : Str) : Str :=
  ((s.dropWhile pyIsSpace).reverse.dropWhile pyIsSpace).reverse

/-- Model of Python `str.split(sep)` for a one-character separator. -/
def pySplitChar (sep : Char) : Str → List Str
  | [] => [[]]
  | c :: rest =>
    match pySplitChar sep rest with
    | [] => if c == sep then [[], []] else [[c]]
    | h :: t => if c == sep then [] :: h :: t else (c :: h) :: t

/-- Model of Python `str.startswith(pat)`. -/
def pyStartsWith (pat s : Str) : Bool := List.isPrefixOf pat s

/-- Model of Python's substring test `needle in hay`. -/
def strContains (needle : Str) : Str → Bool
  | [] => needle.isEmpty
  | c :: rest => List.isPrefixOf needle (c :: rest) || strContains needle rest

/-- Model of Python `content.splitlines()` (newline-separated text). -/
def pySplitlines (s : Str) : List Str := pySplitChar '\n' s

/-- Value of an ASCII digit character. -/
def digitVal (c : Char) : Nat := c.toNat - 48

/-- Leap-year test used by the Gregorian calendar. -/
def isLeapYear (y : Nat) : Bool :=
  y % 4 == 0 && (y % 100 != 0 || y % 400 == 0)

/-- Length in days of month `m` of year `y`. -/
def daysInMonth (y m : Nat) : Nat :=
  if m == 2 then (if isLeapYear y then 29 else 28)
  else if m == 4 || m == 6 || m == 9 || m == 11 then 30
  else 31

/-- Days in all years before year `y` (proleptic Gregorian, year 1 based). -/
def daysBeforeYear (y : Nat) : Nat :=
  365 * (y - 1) + (y - 1) / 4 - (y - 1) / 100 + (y - 1) / 400

/-- Days in year `y` that lie before month `m`. -/
def daysBeforeMonth (y : Nat) : Nat → Nat
  | 0 => 0
  | m + 1 => daysBeforeMonth y m + (if m == 0 then 0 else daysInMonth y m)

/-- Day ordinal of a calendar date, as in Python's `date.toordinal`. -/
def toOrdinal (y m d : Nat) : Nat := daysBeforeYear y + daysBeforeMonth y m + d

/-- Zone-aware Python datetime for the single configured fixed-offset zone. -/
structure PyDateTime where
  year : Nat
  month : Nat
  day : Nat
  hour : Nat
  minute : Nat
deriving DecidableEq

/-- Minutes-since-origin linearisation; realises comparison of aware
datetimes that share the configured fixed-offset zone. -/
def instant (t : PyDateTime) : Nat :=
  (toOrdinal t.year t.month t.day) * 1440 + t.hour * 60 + t.minute

/-- Model of `datetime.strptime(s, "%H:%M")`: a 1-2 digit hour below 24,
a colon, a 1-2 digit minute below 60, nothing left over. -/
def parseHM (s : Str) : Option (Nat × Nat) :=
  match parseHourPart s with
  | none => none
  | some (h, rest) =>
    match rest with
    | ':' :: rest2 =>
      match parseMinutePart rest2 with
      | some (m, []) => some (h, m)
      | _ => none
    | _ => none
where
  /-- Hour field of `%H`: two digits when they form a value below 24,
  otherwise a single digit (mirrors the regex `2[0-3]|[0-1]\d|\d`). -/
  parseHourPart : Str → Option (Nat × Str)
    | a :: b :: r =>
      if a.isDigit && b.isDigit && digitVal a * 10 + digitVal b ≤ 23 then
        some (digitVal a * 10 + digitVal b, r)
      else if a.isDigit then some (digitVal a, b :: r)
      else none
    | [a] => if a.isDigit then some (digitVal a, []) else none
    | [] => none
  /-- Minute field of `%M` (mirrors the regex `[0-5]\d|\d`). -/
  parseMinutePart : Str → Option (Nat × Str)
    | a :: b :: r =>
      if a.isDigit && b.isDigit && digitVal a * 10 + digitVal b ≤ 59 then
        some (digitVal a * 10 + digitVal b, r)
      else if a.isDigit then some (digitVal a, b :: r)
      else none
    | [a] => if a.isDigit then some (digitVal a, []) else none
    | [] => none

/-- Model of `datetime.fromisoformat(s).date()` on the canonical
`YYYY-MM-DD` form: four digit year, two digit month and day, validated. -/
def parseDate (s : Str) : Option (Nat × Nat × Nat) :=
  match s with
  | [y1, y2, y3, y4, s1, m1, m2, s2, d1, d2] =>
    if y1.isDigit && y2.isDigit && y3.isDigit && y4.isDigit &&
       (s1 == '-') && m1.isDigit && m2.isDigit &&
       (s2 == '-') && d1.isDigit && d2.isDigit then
      let y := ((digitVal y1 * 10 + digitVal y2) * 10 + digitVal y3) * 10 + digitVal y4
      let m := digitVal m1 * 10 + digitVal m2
      let d := digitVal d1 * 10 + digitVal d2
      if 1 ≤ m && m ≤ 12 && 1 ≤ d && d ≤ daysInMonth y m then
        some (y, m, d)
      else none
    else none
  | _ => none

/-- Raw session entry: one JSON object of the sessions array, with the
keys `src/bot.py` reads from it. -/
structure RawSession where
  id : Option Str := none
  lecture : Option Str := none
  session : Option Str := none
  date : Option Str := none
  time : Option Str := none
  start_time : Option Str := none
  end_time : Option Str := none
  mode_location : Option Str := none
  venue : Option Str := none
  google_map : Option Str := none
  zoom_link : Option Str := none
  meeting_id : Option Str := none
  passcode : Option Str := none
deriving DecidableEq

/-- Normalised session, mirroring the `Session` dataclass. -/
structure Session where
  id : Str
  lecture : Str
  session_label : Str
  start : PyDateTime
  endTime : PyDateTime
  mode_location : Str
  venue : Option Str
  google_map : Option Str
  zoom_link : Option Str
  meeting_id : Option Str
  passcode : Option Str
deriving DecidableEq

/-- Course data, mirroring the `CourseData` dataclass. -/
structure CourseData where
  title : Str
  sessions : List Session
  qr_attendance_url : Option Str
  attendance_check_url : Option Str
  carpark_info_url : Option Str
  materials_url : Option Str
deriving DecidableEq

def strLecture : Str := "Lecture".toList
def strSession : Str := "Session".toList
def errBadRange : Str := "Invalid time range".toList
def errNoTime : Str := "Missing time fields in session entry".toList
def errNoDate : Str := "KeyError: date".toList
def errBadDate : Str := "Invalid isoformat string".toList
def errBadTime : Str := "time data does not match format %H:%M".toList

/-- Model of `_parse_time_range`: split on every `-`, demand exactly two
parts, strip each. -/
def _parse_time_range (time_range : Str) : Except Str (Str × Str) :=
  match pySplitChar '-' time_range with
  | [a, b] => .ok (pyStrip a, pyStrip b)
  | _ => .error errBadRange

/-- Model of `_extract_start_end_times`: prefer explicit `start_time` and
`end_time` keys (used verbatim), else split a single `time` range. -/
def _extract_start_end_times (raw : RawSession) : Except Str (Str × Str) :=
  if raw.start_time.isSome && raw.end_time.isSome then
    .ok (raw.start_time.getD [], raw.end_time.getD [])
  else
    match raw.time with
    | some t => _parse_time_range t
    | none => .error errNoTime

/-- Model of `_build_session_id`: an explicit non-empty `id` wins, else the
`lecture-session-date` slug with spaces replaced by underscores. -/
def _build_session_id (raw : RawSession) : Str :=
  match raw.id with
  | some s =>
    if s.isEmpty then buildSlug raw else s
  | none => buildSlug raw
where
  /-- Slug from the non-empty pieces, each stripped and de-spaced. -/
  buildSlug (raw : RawSession) : Str :=
    let pieces := [raw.lecture.getD [], raw.session.getD [], raw.date.getD []]
    List.intercalate ['-']
      ((pieces.filter (fun p => !p.isEmpty)).map
        (fun p => (pyStrip p).map (fun c => if c == ' ' then '_' else c)))

/-- Normalisation of one raw entry: the body of the loop in
`_parse_sessions_list`, evaluated in source order. -/
def parseOneSession (raw : RawSession) : Except Str Session :=
  match _extract_start_end_times raw with
  | .error e => .error e
  | .ok (start_str, end_str) =>
    match raw.date with
    | none => .error errNoDate
    | some dstr =>
      match parseDate dstr with
      | none => .error errBadDate
      | some (y, m, d) =>
        match parseHM start_str with
        | none => .error errBadTime
        | some (sh, sm) =>
          match parseHM end_str with
          | none => .error errBadTime
          | some (eh, em) =>
            .ok { id := _build_session_id raw,
                  lecture := raw.lecture.getD strLecture,
                  session_label := raw.session.getD strSession,
                  start := ⟨y, m, d, sh, sm⟩,
                  endTime := ⟨y, m, d, eh, em⟩,
                  mode_location := raw.mode_location.getD [],
                  venue := raw.venue,
                  google_map := raw.google_map,
                  zoom_link := raw.zoom_link,
                  meeting_id := raw.meeting_id,
                  passcode := raw.passcode }

/-- Loop of `_parse_sessions_list`: normalise every entry, aborting the
whole load on the first error. -/
def parseSessionsGo : List RawSession → Except Str (List Session)
  | [] => .ok []
  | raw :: rest =>
    match parseOneSession raw with
    | .error e => .error e
    | .ok s =>
      match parseSessionsGo rest with
      | .error e => .error e
      | .ok ss => .ok (s :: ss)

/-- Comparison key used by `sessions.sort(key=lambda s: s.start)`. -/
def startLe (a b : Session) : Prop := instant a.start ≤ instant b.start

instance : DecidableRel startLe := fun _ _ => Nat.decLe _ _

instance : IsTotal Session startLe := ⟨fun _ _ => Nat.le_total _ _⟩

instance : IsTrans Session startLe := ⟨fun _ _ _ => Nat.le_trans⟩

/-- Model of `_parse_sessions_list`: normalise all entries, then sort the
result by `start` (Python's stable sort, realised by insertion sort). -/
def _parse_sessions_list (payload : List RawSession) : Except Str (List Session) :=
  match parseSessionsGo payload with
  | .error e => .error e
  | .ok ss => .ok (List.insertionSort startLe ss)

/-- Strictly-ascending-by-`start` test on adjacent pairs, as worded by the
specification's sortedness property. -/
def strictlyAscendingByStart : List Session → Bool
  | [] => true
  | [_] => true
  | a :: b :: rest =>
    decide (instant a.start < instant b.start) && strictlyAscendingByStart (b :: rest)

def strHttp : Str := "http".toList
def strTag : Str := "session_reminder".toList
def strBefore : Str := "before".toList
def strEnd : Str := "end".toList
def strDashBefore : Str := "-before".toList
def strDashEnd : Str := "-end".toList
def strCourse : Str := "Course".toList
def errNoBlock : Str := "Unable to locate sessions JSON block in course_info.txt".toList
def errJson : Str := "json.loads failed".toList
def kwQr : Str := "QR code for marking attendance".toList
def kwCheck : Str := "checking attendance".toList
def kwCarpark : Str := "Carpark Charges".toList
def kwMaterials : Str := "Course Materials".toList

/-- Model of `_find_url_after_keyword`: scan the lines for one containing
the keyword case-insensitively; return the stripped next line when it
starts with `http`, otherwise keep scanning. -/
def _find_url_after_keyword (lines : List Str) (keyword : Str) : Option Str :=
  match lines with
  | [] => none
  | line :: rest =>
    if strContains (lowerStr keyword) (lowerStr line) then
      match rest with
      | next :: _ =>
        if pyStartsWith strHttp (pyStrip next) then some (pyStrip next)
        else _find_url_after_keyword rest keyword
      | [] => none
    else _find_url_after_keyword rest keyword

/-- Scan of the reversed tail of a candidate match for the pattern's end:
index of the first `]` (counted from the end of the original tail) that is
preceded, modulo whitespace, by a `}`.  This realises the greedy `.*}\s*\]`
suffix of `SESSION_JSON_PATTERN` under leftmost-longest backtracking. -/
def revFind : Str → Option Nat
  | [] => none
  | c :: rest =>
    if c == ']' && ((rest.dropWhile pyIsSpace).head? == some '}') then some 0
    else (revFind rest).map Nat.succ

/-- Attempt to match `SESSION_JSON_PATTERN` (`\[\s*{.*}\s*\]` with DOTALL)
at the start of `s`; returns the length of the greedy match. -/
def matchAt (s : Str) : Option Nat :=
  match s with
  | [] => none
  | c :: s1 =>
    if c == '[' then
      match s1.dropWhile pyIsSpace with
      | [] => none
      | c2 :: t =>
        if c2 == '{' then
          match revFind t.reverse with
          | some i => some (1 + (s1.length - (1 + t.length)) + 1 + (t.length - i))
          | none => none
        else none
    else none

/-- Model of `SESSION_JSON_PATTERN.search(content)`: the match at the
leftmost position where the pattern matches, as a substring.  (There is no
match at the empty suffix, so the scan ends in `none`.) -/
def pySearch : Str → Option Str
  | [] => none
  | c :: rest =>
    match matchAt (c :: rest) with
    | some n => some ((c :: rest).take n)
    | none => pySearch rest

/-- Lines of the legacy file as prepared by `load_course_data_legacy`:
every line stripped, blank lines removed. -/
def linesOf (content : Str) : List Str :=
  ((pySplitlines content).map pyStrip).filter (fun l => !l.isEmpty)

/-- Model of `load_course_data_legacy`.  The JSON decoder (`json.loads`
specialised to an array of session objects) is passed in as `decode`;
`none` models a raised `JSONDecodeError`. -/
def load_course_data_legacy (decode : Str → Option (List RawSession))
    (content : Str) : Except Str CourseData :=
  let lines := linesOf content
  let title := lines.head?.getD strCourse
  match pySearch content with
  | none => .error errNoBlock
  | some block =>
    match decode block with
    | none => .error errJson
    | some payload =>
      match _parse_sessions_list payload with
      | .error e => .error e
      | .ok sessions =>
        .ok { title := title,
              sessions := sessions,
              qr_attendance_url := _find_url_after_keyword lines kwQr,
              attendance_check_url := _find_url_after_keyword lines kwCheck,
              carpark_info_url := _find_url_after_keyword lines kwCarpark,
              materials_url := _find_url_after_keyword lines kwMaterials }

/-- Occurrence test for `[` followed, modulo whitespace, by `{` (used to
state when prose ahead of the sessions block is harmless). -/
def hasOpen : Str → Bool
  | [] => false
  | c :: rest =>
    (c == '[' && ((rest.dropWhile pyIsSpace).head? == some '{')) || hasOpen rest

/-- Occurrence test, on a reversed string, for `}` followed modulo
whitespace by `]` in the original string (used to state when prose after
the sessions block is harmless). -/
def hasCloseRev : Str → Bool
  | [] => false
  | c :: rest =>
    (c == ']' && ((rest.dropWhile pyIsSpace).head? == some '}')) || hasCloseRev rest

/-- Session block bounded by `[{` and `}]` with whitespace allowed inside
the bounds, as in the specification's legacy-format description. -/
def arrOf (ws1 mid ws2 : Str) : Str :=
  '[' :: ws1 ++ '{' :: mid ++ '}' :: ws2 ++ [']']

/-- Reminder job installed on the job queue by `schedule_reminders`
(`run_once` with a payload dict and a name). -/
structure Job where
  whenAt : Nat
  session_id : Str
  kind : Str
  tag : Str
  name : Str
deriving DecidableEq

/-- Job the scheduler arms 30 minutes ahead of a session's start. -/
def beforeJob (s : Session) : Job :=
  ⟨instant s.start - 30, s.id, strBefore, strTag, s.id ++ strDashBefore⟩

/-- Job the scheduler arms at a session's end. -/
def endJob (s : Session) : Job :=
  ⟨instant s.endTime, s.id, strEnd, strTag, s.id ++ strDashEnd⟩

/-- Jobs installed for one session by the loop in `schedule_reminders`:
a before job when `start - 30min` is still ahead of `now`, an end job when
`end` is still ahead of `now`. -/
def sessionJobs (now : Nat) (s : Session) : List Job :=
  (if instant s.start - 30 > now then [beforeJob s] else []) ++
    (if instant s.endTime > now then [endJob s] else [])

/-- Model of `clear_existing_reminders`: remove every queued job whose
payload carries the shared `session_reminder` tag. -/
def clear_existing_reminders (jobs : List Job) : List Job :=
  jobs.filter (fun j => !(j.tag == strTag))

/-- Model of `schedule_reminders`: clear the previously armed reminder
jobs, then install the jobs for every session of the course against the
clock reading `now`. -/
def schedule_reminders (jobs : List Job) (course : CourseData) (now : Nat) : List Job :=
  clear_existing_reminders jobs ++ course.sessions.flatMap (sessionJobs now)

/-- Outcome of one iteration of the fan-out loop in
`send_session_reminder`. -/
inductive DeliveryOutcome where
  | sent
  | failed
  | skippedDryRun
deriving DecidableEq

/-- Per-recipient fan-out loop of `send_session_reminder`: each delivery
is attempted inside its own try/except, so a failure (`deliver c = false`,
modelling a raised exception) is logged and the loop continues. -/
def deliverLoop (deliver : Int → Bool) (dryRun : Bool) : List Int → List (Int × DeliveryOutcome)
  | [] => []
  | c :: rest =>
    (c, if dryRun then .skippedDryRun
        else if deliver c then .sent else .failed) :: deliverLoop deliver dryRun rest

/-- Model of `send_session_reminder`: resolve the session (absent id is a
logged no-op), read the current active chat ids, no-op when empty, else
run the fan-out loop.  Returns the delivery attempts in order. -/
def send_session_reminder (session_map : Str → Option Session) (session_id : Str)
    (chat_ids : List Int) (dryRun : Bool) (deliver : Int → Bool) :
    List (Int × DeliveryOutcome) :=
  match session_map session_id with
  | none => []
  | some _ =>
    if chat_ids.isEmpty then []
    else deliverLoop deliver dryRun chat_ids

/-- Row of the `subscribers` table (the `created_at` column is never read
back and is omitted). -/
structure SubRow where
  user : Int
  chat : Int
  active : Bool
deriving DecidableEq

/-- Model of `SubscriberStore.subscribe`: upsert on the `user_id` primary
key, setting `chat_id` and `active=1`. -/
def subscribe (s : List SubRow) (u c : Int) : List SubRow :=
  if s.any (fun r => r.user == u) then
    s.map (fun r => if r.user == u then { r with chat := c, active := true } else r)
  else s ++ [⟨u, c, true⟩]

/-- Model of `SubscriberStore.unsubscribe`: set `active=0` on the matching
row; a missing row leaves the table unchanged. -/
def unsubscribe (s : List SubRow) (u : Int) : List SubRow :=
  s.map (fun r => if r.user == u then { r with active := false } else r)

/-- Model of `SubscriberStore.is_active`. -/
def is_active (s : List SubRow) (u : Int) : Bool :=
  s.any (fun r => r.user == u && r.active)

/-- Model of `SubscriberStore.active_chat_ids`. -/
def active_chat_ids (s : List SubRow) : List Int :=
  (s.filter (fun r => r.active)).map (fun r => r.chat)

/-- Decimal rendering of `n`, zero-padded to `w` digits, as produced by
`strftime` field formatting. -/
def padNum (w n : Nat) : Str :=
  let ds := Nat.toDigits 10 n
  List.replicate (w - ds.length) '0' ++ ds

/-- Model of the `display_date` property: `start.strftime("%Y-%m-%d")`. -/
def display_date (s : Session) : Str :=
  padNum 4 s.start.year ++ '-' :: padNum 2 s.start.month ++ '-' :: padNum 2 s.start.day

/-- Match test of one session against the prepared query string `q`, in
the source's field order. -/
def matchesQuery (q : Str) (s : Session) : Bool :=
  strContains q (lowerStr s.lecture) || strContains q (lowerStr s.session_label) ||
    strContains q (display_date s)

/-- Accumulating loop of `find_sessions_by_query`. -/
def findSessionsGo (q : Str) : List Session → List Session
  | [] => []
  | s :: rest =>
    if matchesQuery q s then s :: findSessionsGo q rest else findSessionsGo q rest

/-- Model of `find_sessions_by_query`: strip and lowercase the query; an
empty result of that preparation short-circuits to no matches. -/
def find_sessions_by_query (course : CourseData) (query : Str) : List Session :=
  if (lowerStr (pyStrip query)).isEmpty then []
  else findSessionsGo (lowerStr (pyStrip query)) course.sessions

/-- Raw entry used by several concrete instances: 2025-01-02, 09:00-10:30,
given as a single `time` range. -/
def rawEarly : RawSession :=
  { date := some ("2025-01-02".toList), time := some ("09:00 - 10:30".toList) }

/-- Same session a day later. -/
def rawLate : RawSession :=
  { date := some ("2025-01-03".toList), time := some ("09:00 - 10:30".toList) }

/-- The entry of `rawEarly` with the time given as split
`start_time`/`end_time` keys instead of a range. -/
def rawSplit : RawSession :=
  { date := some ("2025-01-02".toList), start_time := some ("09:00".toList),
    end_time := some ("10:30".toList) }

/-- Raw entry whose end time-of-day precedes its start time-of-day. -/
def rawBackwards : RawSession :=
  { date := some ("2025-01-02".toList), time := some ("10:00 - 09:00".toList) }

/-- Normalised form of `rawEarly`. -/
def sessEarly : Session :=
  { id := "2025-01-02".toList, lecture := strLecture, session_label := strSession,
    start := ⟨2025, 1, 2, 9, 0⟩, endTime := ⟨2025, 1, 2, 10, 30⟩,
    mode_location := [], venue := none, google_map := none, zoom_link := none,
    meeting_id := none, passcode := none }

/-- Normalised form of `rawLate`. -/
def sessLate : Session :=
  { sessEarly with
    id := "2025-01-03".toList,
    start := ⟨2025, 1, 3, 9, 0⟩,
    endTime := ⟨2025, 1, 3, 10, 30⟩ }

/-- Normalised form of `rawBackwards`. -/
def sessBackwards : Session :=
  { sessEarly with
    start := ⟨2025, 1, 2, 10, 0⟩,
    endTime := ⟨2025, 1, 2, 9, 0⟩ }

/-- One-session course built on `sessEarly`. -/
def courseEarly : CourseData :=
  { title := [], sessions := [sessEarly], qr_attendance_url := none,
    attendance_check_url := none, carpark_info_url := none, materials_url := none }

/-- Session with a searchable lecture name. -/
def sessQuery : Session :=
  { sessEarly with lecture := "Lecture 1".toList }

/-- One-session course built on `sessQuery`. -/
def courseQuery : CourseData := { courseEarly with sessions := [sessQuery] }

/-- Query carrying surrounding whitespace. -/
def qryPadded : Str := " Lec ".toList

/-- Legacy prose ahead of the sessions block in the harmless shape. -/
def preGood : Str := "Course Title\nhello there\n".toList

/-- Legacy prose after the sessions block in the harmless shape. -/
def postGood : Str := "\nCourse Materials\nhttp://m.example\n".toList

/-- Interior of the one-object sessions block used by concrete legacy
inputs.  `arrOf [] midGood []` is the whole block. -/
def midGood : Str := "\"date\": \"2025-01-02\", \"time\": \"09:00 - 10:30\"".toList

/-- JSON decoder oracle that accepts exactly the block `arrOf [] midGood []`
(as `json.loads` does for this well-formed array) and rejects everything
else (prose-contaminated superstrings of it are not valid JSON). -/
def decodeGood (s : Str) : Option (List RawSession) :=
  if s == arrOf [] midGood [] then some [rawEarly] else none

/-- Trailing prose containing a stray brace-bracket pair. -/
def postBad : Str := "\np \x7d] q".toList

/-- Leading prose of the greedy-match counterexample. -/
def preBad : Str := "T\n".toList

/-- What the greedy pattern actually matches on
`preBad ++ arrOf [] midGood [] ++ postBad`: it runs to the last
brace-bracket close, swallowing the trailing prose. -/
def badMatch : Str := (arrOf [] midGood []) ++ "\np \x7d]".toList

/-- Lines of a legacy file where the keyword line is followed by a URL. -/
def linesKw : List Str := ["Course Materials:".toList, "http://m.example".toList]

/-- The URL on the second line of `linesKw`. -/
def urlKw : Str := "http://m.example".toList

/-- Store state with one unrelated subscriber row. -/
def storeOther : List SubRow := [⟨9, 4, true⟩]

theorem deliverLoop_fst (deliver : Int → Bool) (dryRun : Bool) :
    ∀ ids, (deliverLoop deliver dryRun ids).map Prod.fst = ids := by
  intro ids
  induction ids with
  | nil => rfl
  | cons c rest ih => simp [deliverLoop, ih]

theorem sessionJobs_tag {now : Nat} {s : Session} {j : Job}
    (h : j ∈ sessionJobs now s) : j.tag = strTag := by
  rcases List.mem_append.mp h with h' | h' <;>
    [skip; skip] <;>
    · split at h'
      · simp [beforeJob, endJob] at h'
        subst h'
        rfl
      · cases h'

theorem clear_sessionJobs (c : CourseData) (n : Nat) :
    clear_existing_reminders (c.sessions.flatMap (sessionJobs n)) = [] := by
  refine List.filter_eq_nil_iff.mpr ?_
  intro j hj
  have := sessionJobs_tag (List.mem_flatMap.mp hj).choose_spec.2
  simp [this]

theorem clear_idem (l : List Job) :
    clear_existing_reminders (clear_existing_reminders l) = clear_existing_reminders l := by
  simp [clear_existing_reminders, List.filter_filter]

theorem keep_sessionJobs (c : CourseData) (n : Nat) :
    (c.sessions.flatMap (sessionJobs n)).filter (fun j => j.tag == strTag) =
      c.sessions.flatMap (sessionJobs n) := by
  refine List.filter_eq_self.mpr ?_
  intro j hj
  simp [sessionJobs_tag (List.mem_flatMap.mp hj).choose_spec.2]

theorem keep_clear (l : List Job) :
    (clear_existing_reminders l).filter (fun j => j.tag == strTag) = [] := by
  simp [clear_existing_reminders, List.filter_filter]

/-- C1 (amended): every successful parse yields a session list sorted
ascending by `start` — non-strictly: adjacent sessions may share a start
instant, as duplicated entries show. -/
theorem c1_parse_sorted (payload : List RawSession) (l : List Session)
    (h : _parse_sessions_list payload = .ok l) : List.Sorted startLe l := by
  unfold _parse_sessions_list at h
  cases hgo : parseSessionsGo payload with
  | error e => rw [hgo] at h; cases h
  | ok ss =>
    rw [hgo] at h
    injection h with h
    subst h
    exact List.sorted_insertionSort startLe ss

theorem c1_parse_sorted_witness :
    List.Sorted startLe [sessEarly, sessLate] ∧
      _parse_sessions_list [rawLate, rawEarly] = .ok [sessEarly, sessLate] :=
  ⟨c1_parse_sorted [rawLate, rawEarly] [sessEarly, sessLate] rfl, rfl⟩

/-- C1 counterexample: a valid payload with two identical entries parses
successfully, but the resulting list is not strictly ascending by `start`
(the two adjacent sessions have equal start instants). -/
theorem c1_strict_counterexample :
    Except.map strictlyAscendingByStart (_parse_sessions_list [rawEarly, rawEarly]) =
      .ok false := rfl

/-- C2: re-arming supersedes the previous arm completely — arming twice in
a row equals arming once with the second arguments, and the reminder-tagged
jobs after the second call are exactly the second call's jobs. -/
theorem c2_rearm_supersedes (jobs : List Job) (course1 : CourseData) (n1 : Nat)
    (course2 : CourseData) (n2 : Nat) :
    schedule_reminders (schedule_reminders jobs course1 n1) course2 n2 =
        schedule_reminders jobs course2 n2 ∧
      (schedule_reminders (schedule_reminders jobs course1 n1) course2 n2).filter
          (fun j => j.tag == strTag) =
        course2.sessions.flatMap (sessionJobs n2) := by
  constructor
  · show clear_existing_reminders (clear_existing_reminders jobs ++ _) ++ _ = _
    rw [show ∀ a b, clear_existing_reminders (a ++ b) =
          clear_existing_reminders a ++ clear_existing_reminders b from
        fun a b => List.filter_append a b,
      clear_idem, clear_sessionJobs, List.append_nil]
    rfl
  · show (clear_existing_reminders (clear_existing_reminders jobs ++ _) ++ _).filter _ = _
    rw [show ∀ a b, clear_existing_reminders (a ++ b) =
          clear_existing_reminders a ++ clear_existing_reminders b from
        fun a b => List.filter_append a b,
      clear_idem, clear_sessionJobs, List.append_nil, List.filter_append,
      keep_clear, keep_sessionJobs, List.nil_append]

theorem beforeJob_ne_endJob (s : Session) : beforeJob s ≠ endJob s := by
  intro h
  have hk : strBefore = strEnd := congrArg Job.kind h
  exact absurd hk (by decide)

/-- C3: the arm loop installs, for a session and clock reading `now`, the
before job exactly when `start - 30min` is strictly after `now` and the
end job exactly when `end` is strictly after `now`; their firing instants
are `start - 30min` and `end`; a session entirely in the past yields no
jobs; and every such job is armed by `schedule_reminders` for any course
containing the session. -/
theorem c3_arm_conditions (s : Session) (now : Nat) :
    (beforeJob s ∈ sessionJobs now s ↔ instant s.start - 30 > now) ∧
      (endJob s ∈ sessionJobs now s ↔ instant s.endTime > now) ∧
      ((beforeJob s).whenAt = instant s.start - 30 ∧ (endJob s).whenAt = instant s.endTime) ∧
      (¬ instant s.start - 30 > now → ¬ instant s.endTime > now → sessionJobs now s = []) ∧
      (∀ (jobs : List Job) (course : CourseData), s ∈ course.sessions →
        sessionJobs now s ⊆ schedule_reminders jobs course now) := by
  refine ⟨?_, ?_, ⟨rfl, rfl⟩, ?_, ?_⟩
  · by_cases h1 : instant s.start - 30 > now <;>
      by_cases h2 : instant s.endTime > now <;>
      simp [sessionJobs, h1, h2, beforeJob_ne_endJob s]
  · by_cases h1 : instant s.start - 30 > now <;>
      by_cases h2 : instant s.endTime > now <;>
      simp [sessionJobs, h1, h2, (beforeJob_ne_endJob s).symm]
  · intro h1 h2
    simp [sessionJobs, h1, h2]
  · intro jobs course hs j hj
    exact List.mem_append.mpr (Or.inr (List.mem_flatMap.mpr ⟨s, hs, hj⟩))

theorem c3_arm_conditions_witness :
    (beforeJob sessEarly ∈ sessionJobs 0 sessEarly) ∧
      sessionJobs (instant sessEarly.endTime) sessEarly = [] ∧
      beforeJob sessEarly ∈ schedule_reminders [] courseEarly 0 :=
  ⟨(c3_arm_conditions sessEarly 0).1.mpr (by decide),
    (c3_arm_conditions sessEarly (instant sessEarly.endTime)).2.2.2.1
      (by decide) (by decide),
    (c3_arm_conditions sessEarly 0).2.2.2.2 [] courseEarly (by decide)
      ((c3_arm_conditions sessEarly 0).1.mpr (by decide))⟩

/-- C4: when the session resolves and the active chat-id list is
non-empty, a delivery attempt is recorded for every chat id in order,
whatever the per-recipient delivery outcomes are — a failure never cuts
the fan-out short. -/
theorem c4_fanout_attempts_all (session_map : Str → Option Session) (session_id : Str)
    (chat_ids : List Int) (dryRun : Bool) (deliver : Int → Bool) (s : Session)
    (hs : session_map session_id = some s) (hne : chat_ids ≠ []) :
    (send_session_reminder session_map session_id chat_ids dryRun deliver).map
        Prod.fst = chat_ids := by
  unfold send_session_reminder
  rw [hs]
  rw [if_neg (by simpa [List.isEmpty_iff] using hne)]
  exact deliverLoop_fst deliver dryRun chat_ids

theorem c4_fanout_attempts_all_witness :
    (send_session_reminder (fun _ => some sessEarly) sessEarly.id [1, 2, 3] false
          (fun c => !(c == 2))).map Prod.fst = [1, 2, 3] ∧
      send_session_reminder (fun _ => some sessEarly) sessEarly.id [1, 2, 3] false
          (fun c => !(c == 2)) =
        [(1, .sent), (2, .failed), (3, .sent)] :=
  ⟨c4_fanout_attempts_all (fun _ => some sessEarly) sessEarly.id [1, 2, 3] false
      (fun c => !(c == 2)) sessEarly rfl (by decide), rfl⟩

theorem dropWhile_append_space (l s : Str) (h : ∀ c ∈ l, pyIsSpace c = true) :
    (l ++ s).dropWhile pyIsSpace = s.dropWhile pyIsSpace := by
  induction l with
  | nil => rfl
  | cons c t ih =>
    rw [List.cons_append, List.dropWhile_cons, if_pos (h c (List.mem_cons_self c t))]
    exact ih (fun x hx => h x (List.mem_cons_of_mem c hx))

theorem revFind_cons (c : Char) (rest : Str) :
    revFind (c :: rest) =
      if c == ']' && ((rest.dropWhile pyIsSpace).head? == some '}') then some 0
      else (revFind rest).map Nat.succ := rfl

theorem matchAt_cons (c : Char) (s1 : Str) :
    matchAt (c :: s1) =
      if c == '[' then
        match s1.dropWhile pyIsSpace with
        | [] => none
        | c2 :: t =>
          if c2 == '{' then
            match revFind t.reverse with
            | some i => some (1 + (s1.length - (1 + t.length)) + 1 + (t.length - i))
            | none => none
          else none
      else none := rfl

theorem revFind_pos (ws tl : Str) (h : ∀ c ∈ ws, pyIsSpace c = true) :
    revFind (']' :: (ws ++ '}' :: tl)) = some 0 := by
  rw [revFind_cons, if_pos]
  rw [dropWhile_append_space ws _ h, List.dropWhile_cons, if_neg (by decide)]
  rfl

theorem revFind_skip (rp : Str) :
    ∀ C : Str, hasCloseRev rp = false → C.head? = some ']' →
      revFind (rp ++ C) = (revFind C).map (fun k => k + rp.length) := by
  induction rp with
  | nil =>
    intro C _ _
    rw [List.nil_append]
    cases revFind C <;> simp
  | cons c rp' ih =>
    intro C h hC
    have hsplit := Bool.or_eq_false_iff.mp h
    have hA : (c == ']' && ((rp'.dropWhile pyIsSpace).head? == some '}')) = false :=
      hsplit.1
    have h' : hasCloseRev rp' = false := hsplit.2
    obtain ⟨d, C', rfl⟩ : ∃ d C', C = d :: C' := by
      cases C with
      | nil => cases hC
      | cons d C' => exact ⟨d, C', rfl⟩
    have hd : d = ']' := by
      simp only [List.head?] at hC
      injection hC
    subst hd
    have hcond :
        (c == ']' && ((((rp' ++ ']' :: C').dropWhile pyIsSpace)).head? == some '}')) =
          false := by
      by_cases hc : (c == ']') = true
      · rw [hc, Bool.true_and]
        rw [hc, Bool.true_and] at hA
        rw [List.dropWhile_append]
        by_cases he : (rp'.dropWhile pyIsSpace).isEmpty = true
        · rw [if_pos he, List.dropWhile_cons, if_neg (by decide)]
          rfl
        · rw [if_neg he]
          cases hdw : rp'.dropWhile pyIsSpace with
          | nil => rw [hdw] at he; simp at he
          | cons x xs =>
            rw [hdw] at hA
            rw [List.cons_append]
            simpa using hA
      · have hcf : (c == ']') = false := Bool.eq_false_iff.mpr hc
        rw [hcf, Bool.false_and]
    rw [List.cons_append, revFind_cons, if_neg (by simp [hcond]), ih (']' :: C') h' rfl]
    cases revFind (']' :: C') with
    | none => simp
    | some k => simp; omega

theorem matchAt_none_of_head (c : Char) (X : Str)
    (h : (c == '[' && ((X.dropWhile pyIsSpace).head? == some '{')) = false) :
    matchAt (c :: X) = none := by
  rw [matchAt_cons]
  by_cases hc : (c == '[') = true
  · rw [if_pos hc]
    rw [hc, Bool.true_and] at h
    cases hd : X.dropWhile pyIsSpace with
    | nil => rfl
    | cons c2 t =>
      rw [hd] at h
      have h2 : (c2 == '{') = false := by simpa using h
      exact if_neg (by simp [h2])
  · rw [if_neg hc]

theorem pySearch_pos (c : Char) (rest : Str) (n : Nat)
    (h : matchAt (c :: rest) = some n) :
    pySearch (c :: rest) = some ((c :: rest).take n) := by
  unfold pySearch
  rw [h]

theorem pySearch_skip (pre : Str) :
    ∀ s : Str, hasOpen pre = false → s.head? = some '[' →
      pySearch (pre ++ s) = pySearch s := by
  induction pre with
  | nil => intro s _ _; rw [List.nil_append]
  | cons c p' ih =>
    intro s hopen hs
    have hsplit := Bool.or_eq_false_iff.mp hopen
    have hA : (c == '[' && ((p'.dropWhile pyIsSpace).head? == some '{')) = false :=
      hsplit.1
    have h' : hasOpen p' = false := hsplit.2
    obtain ⟨a, s', rfl⟩ : ∃ a s', s = a :: s' := by
      cases s with
      | nil => cases hs
      | cons a s' => exact ⟨a, s', rfl⟩
    have ha : a = '[' := by
      simp only [List.head?] at hs
      injection hs
    subst ha
    have hm : matchAt (c :: (p' ++ '[' :: s')) = none := by
      apply matchAt_none_of_head
      by_cases hc : (c == '[') = true
      · rw [hc, Bool.true_and]
        rw [hc, Bool.true_and] at hA
        rw [List.dropWhile_append]
        by_cases he : (p'.dropWhile pyIsSpace).isEmpty = true
        · rw [if_pos he, List.dropWhile_cons, if_neg (by decide)]
          rfl
        · rw [if_neg he]
          cases hdw : p'.dropWhile pyIsSpace with
          | nil => rw [hdw] at he; simp at he
          | cons x xs =>
            rw [hdw] at hA
            rw [List.cons_append]
            simpa using hA
      · have hcf : (c == '[') = false := Bool.eq_false_iff.mpr hc
        rw [hcf, Bool.false_and]
    rw [List.cons_append]
    unfold pySearch
    rw [hm]
    exact ih ('[' :: s') h' rfl

theorem matchAt_cons_open (s1 : Str) (c2 : Char) (t : Str)
    (hdw : s1.dropWhile pyIsSpace = c2 :: t) (hc2 : (c2 == '{') = true) :
    matchAt ('[' :: s1) =
      match revFind t.reverse with
      | some i => some (1 + (s1.length - (1 + t.length)) + 1 + (t.length - i))
      | none => none := by
  rw [matchAt_cons, if_pos (show ('[' == '[') = true from rfl), hdw]
  exact if_pos hc2

theorem matchAt_arr (ws1 mid ws2 post : Str)
    (h1 : ∀ c ∈ ws1, pyIsSpace c = true) (h2 : ∀ c ∈ ws2, pyIsSpace c = true)
    (hpost : hasCloseRev post.reverse = false) :
    matchAt (arrOf ws1 mid ws2 ++ post) = some (arrOf ws1 mid ws2).length := by
  have harr : arrOf ws1 mid ws2 ++ post =
      '[' :: (ws1 ++ '{' :: (mid ++ '}' :: (ws2 ++ ']' :: post))) := by
    simp [arrOf]
  have hdw : (ws1 ++ '{' :: (mid ++ '}' :: (ws2 ++ ']' :: post))).dropWhile pyIsSpace
      = '{' :: (mid ++ '}' :: (ws2 ++ ']' :: post)) := by
    rw [dropWhile_append_space ws1 _ h1, List.dropWhile_cons, if_neg (by decide)]
  rw [harr, matchAt_cons_open _ '{' _ hdw rfl]
  have hrev : (mid ++ '}' :: (ws2 ++ ']' :: post)).reverse =
      post.reverse ++ ']' :: (ws2.reverse ++ '}' :: mid.reverse) := by
    simp
  have hws2 : ∀ c ∈ ws2.reverse, pyIsSpace c = true :=
    fun c hc => h2 c (List.mem_reverse.mp hc)
  rw [hrev,
    revFind_skip post.reverse (']' :: (ws2.reverse ++ '}' :: mid.reverse)) hpost rfl,
    revFind_pos ws2.reverse mid.reverse hws2]
  show some _ = some _
  congr 1
  simp only [arrOf, List.length_append, List.length_cons, List.length_nil,
    List.length_reverse]
  omega

/-- C5 (amended): a legacy document made of leading prose, a well-formed
session array bounded by brace brackets, and trailing prose is located
exactly, and the legacy loader parses it, provided the leading prose holds
no `[` followed (modulo whitespace) by `{` and the trailing prose holds no
`}` followed (modulo whitespace) by `]` — the pattern being greedy at both
ends, such surrounding text shifts the match. -/
theorem c5_legacy_locates (pre ws1 mid ws2 post : Str)
    (decode : Str → Option (List RawSession)) (payload : List RawSession)
    (res : List Session)
    (hpre : hasOpen pre = false) (hpost : hasCloseRev post.reverse = false)
    (h1 : ∀ c ∈ ws1, pyIsSpace c = true) (h2 : ∀ c ∈ ws2, pyIsSpace c = true)
    (hdec : decode (arrOf ws1 mid ws2) = some payload)
    (hparse : _parse_sessions_list payload = .ok res) :
    pySearch (pre ++ arrOf ws1 mid ws2 ++ post) = some (arrOf ws1 mid ws2) ∧
      Except.map CourseData.sessions
          (load_course_data_legacy decode (pre ++ arrOf ws1 mid ws2 ++ post)) =
        .ok res := by
  have hhead : (arrOf ws1 mid ws2 ++ post).head? = some '[' := rfl
  have hm : matchAt (arrOf ws1 mid ws2 ++ post) = some (arrOf ws1 mid ws2).length :=
    matchAt_arr ws1 mid ws2 post h1 h2 hpost
  have harr : arrOf ws1 mid ws2 ++ post =
      '[' :: (ws1 ++ '{' :: (mid ++ '}' :: (ws2 ++ ']' :: post))) := by
    simp [arrOf]
  have hsearch : pySearch (pre ++ arrOf ws1 mid ws2 ++ post) = some (arrOf ws1 mid ws2) := by
    rw [List.append_assoc, pySearch_skip pre _ hpre hhead]
    rw [harr] at hm
    rw [harr, pySearch_pos _ _ _ hm, ← harr, List.take_left]
  refine ⟨hsearch, ?_⟩
  have hsearch' : pySearch (pre ++ (arrOf ws1 mid ws2 ++ post)) = some (arrOf ws1 mid ws2) := by
    rw [← List.append_assoc]
    exact hsearch
  simp [load_course_data_legacy, hsearch', hdec, hparse, Except.map]

/-- C5 counterexample: with trailing prose containing a stray `}]`, the
greedy pattern swallows the prose — the located block is not the array,
and the legacy load fails on the contaminated block even though the
document is leading prose, a well-formed array, and trailing prose. -/
theorem c5_greedy_counterexample :
    pySearch (preBad ++ arrOf [] midGood [] ++ postBad) = some badMatch ∧
      badMatch ≠ arrOf [] midGood [] ∧
      load_course_data_legacy decodeGood (preBad ++ arrOf [] midGood [] ++ postBad) =
        .error errJson :=
  ⟨rfl, by decide, rfl⟩

theorem c5_legacy_locates_witness :
    pySearch (preGood ++ arrOf [] midGood [] ++ postGood) = some (arrOf [] midGood []) ∧
      Except.map CourseData.sessions
          (load_course_data_legacy decodeGood
            (preGood ++ arrOf [] midGood [] ++ postGood)) =
        .ok [sessEarly] :=
  c5_legacy_locates preGood [] midGood [] postGood decodeGood [rawEarly] [sessEarly]
    (by decide) (by decide) (by simp) (by simp) (by decide) rfl

theorem find_url_some (lines : List Str) (kw : Str) :
    ∀ u, _find_url_after_keyword lines kw = some u →
      ∃ pre line next post, lines = pre ++ line :: next :: post ∧
        strContains (lowerStr kw) (lowerStr line) = true ∧
        pyStartsWith strHttp (pyStrip next) = true ∧ u = pyStrip next := by
  induction lines with
  | nil => intro u h; cases h
  | cons l rest ih =>
    intro u h
    by_cases hc : strContains (lowerStr kw) (lowerStr l) = true
    · cases rest with
      | nil => simp [_find_url_after_keyword, hc] at h
      | cons nxt rest' =>
        by_cases hs : pyStartsWith strHttp (pyStrip nxt) = true
        · simp only [_find_url_after_keyword, hc, hs, if_true, if_pos,
            Option.some.injEq] at h
          exact ⟨[], l, nxt, rest', rfl, hc, hs, h.symm⟩
        · simp only [_find_url_after_keyword, hc, hs, if_true, if_neg,
            Bool.not_eq_true] at h
          obtain ⟨p, ln, nx, po, heq, h1, h2, h3⟩ := ih u h
          exact ⟨l :: p, ln, nx, po, by rw [heq]; rfl, h1, h2, h3⟩
    · have hstep : _find_url_after_keyword (l :: rest) kw =
          _find_url_after_keyword rest kw := by
        cases rest with
        | nil => simp [_find_url_after_keyword, hc]
        | cons nxt rest' => simp [_find_url_after_keyword, hc]
      rw [hstep] at h
      obtain ⟨p, ln, nx, po, heq, h1, h2, h3⟩ := ih u h
      exact ⟨l :: p, ln, nx, po, by rw [heq]; rfl, h1, h2, h3⟩

theorem find_url_isSome (lines : List Str) (kw : Str) :
    (∃ pre line next post, lines = pre ++ line :: next :: post ∧
      strContains (lowerStr kw) (lowerStr line) = true ∧
      pyStartsWith strHttp (pyStrip next) = true) →
    (_find_url_after_keyword lines kw).isSome = true := by
  induction lines with
  | nil =>
    rintro ⟨pre, line, next, post, heq, -, -⟩
    exact absurd heq (by cases pre <;> simp)
  | cons l rest ih =>
    rintro ⟨pre, line, next, post, heq, h1, h2⟩
    cases pre with
    | nil =>
      rw [List.nil_append] at heq
      injection heq with e1 e2
      subst e1
      subst e2
      simp [_find_url_after_keyword, h1, h2]
    | cons p pre' =>
      rw [List.cons_append] at heq
      injection heq with e1 e2
      subst e1
      have hex : (∃ pre line next post, rest = pre ++ line :: next :: post ∧
          strContains (lowerStr kw) (lowerStr line) = true ∧
          pyStartsWith strHttp (pyStrip next) = true) :=
        ⟨pre', line, next, post, e2, h1, h2⟩
      have hrest := ih hex
      by_cases hc : strContains (lowerStr kw) (lowerStr l) = true
      · cases hr : rest with
        | nil =>
          rw [hr] at e2
          exact absurd e2.symm (by cases pre' <;> simp)
        | cons nxt rest' =>
          by_cases hs : pyStartsWith strHttp (pyStrip nxt) = true
          · simp [_find_url_after_keyword, hc, hs]
          · rw [hr] at hrest
            simp only [_find_url_after_keyword, hc, hs, if_true, if_neg,
              Bool.not_eq_true]
            simpa [hs] using hrest
      · have hstep : _find_url_after_keyword (l :: rest) kw =
            _find_url_after_keyword rest kw := by
          cases rest with
          | nil => simp [_find_url_after_keyword, hc]
          | cons nxt rest' => simp [_find_url_after_keyword, hc]
        rw [hstep]
        exact hrest

theorem legacy_urls (decode : Str → Option (List RawSession)) (content : Str)
    (cd : CourseData) (h : load_course_data_legacy decode content = .ok cd) :
    cd.qr_attendance_url = _find_url_after_keyword (linesOf content) kwQr ∧
      cd.attendance_check_url = _find_url_after_keyword (linesOf content) kwCheck ∧
      cd.carpark_info_url = _find_url_after_keyword (linesOf content) kwCarpark ∧
      cd.materials_url = _find_url_after_keyword (linesOf content) kwMaterials := by
  cases hps : pySearch content with
  | none => simp [load_course_data_legacy, hps] at h
  | some block =>
    cases hdec : decode block with
    | none => simp [load_course_data_legacy, hps, hdec] at h
    | some payload =>
      cases hp : _parse_sessions_list payload with
      | error e => simp [load_course_data_legacy, hps, hdec, hp] at h
      | ok ss =>
        simp only [load_course_data_legacy, hps, hdec, hp] at h
        injection h with h
        subst h
        exact ⟨rfl, rfl, rfl, rfl⟩

/-- C6: a resource URL is attached for a keyword exactly when some line
contains it case-insensitively and the following (already blank-filtered)
line, stripped, starts with `http`; the attached URL is that stripped next
line; and the legacy loader wires each of the four fixed keywords to its
course field over the blank-filtered stripped lines of the input. -/
theorem c6_url_heuristic (lines : List Str) (kw : Str) :
    ((_find_url_after_keyword lines kw).isSome = true ↔
      ∃ pre line next post, lines = pre ++ line :: next :: post ∧
        strContains (lowerStr kw) (lowerStr line) = true ∧
        pyStartsWith strHttp (pyStrip next) = true) ∧
    (∀ u, _find_url_after_keyword lines kw = some u →
      ∃ pre line next post, lines = pre ++ line :: next :: post ∧
        strContains (lowerStr kw) (lowerStr line) = true ∧
        pyStartsWith strHttp (pyStrip next) = true ∧ u = pyStrip next) ∧
    (∀ decode content cd, load_course_data_legacy decode content = .ok cd →
      cd.qr_attendance_url = _find_url_after_keyword (linesOf content) kwQr ∧
      cd.attendance_check_url = _find_url_after_keyword (linesOf content) kwCheck ∧
      cd.carpark_info_url = _find_url_after_keyword (linesOf content) kwCarpark ∧
      cd.materials_url = _find_url_after_keyword (linesOf content) kwMaterials) := by
  refine ⟨⟨?_, ?_⟩, ?_, ?_⟩
  · intro h
    obtain ⟨u, hu⟩ := Option.isSome_iff_exists.mp h
    obtain ⟨pre, line, next, post, heq, h1, h2, -⟩ := find_url_some lines kw u hu
    exact ⟨pre, line, next, post, heq, h1, h2⟩
  · exact find_url_isSome lines kw
  · exact find_url_some lines kw
  · exact fun decode content cd h => legacy_urls decode content cd h

theorem c6_url_heuristic_witness :
    ∃ pre line next post,
      linesKw = pre ++ line :: next :: post ∧
      strContains (lowerStr kwMaterials) (lowerStr line) = true ∧
      pyStartsWith strHttp (pyStrip next) = true ∧ urlKw = pyStrip next :=
  (c6_url_heuristic linesKw kwMaterials).2.1 urlKw rfl

/-- C7: an entry giving its time as a single range string and an entry on
the same date giving the range's two split-and-trimmed components as
explicit `start_time`/`end_time` keys normalise to identical `start` and
`end` instants. -/
theorem c7_time_forms_equivalent (r1 r2 : RawSession) (t a b : Str)
    (h1 : r1.start_time = none) (ht : r1.time = some t)
    (hr : _parse_time_range t = .ok (a, b))
    (h2s : r2.start_time = some a) (h2e : r2.end_time = some b)
    (hd : r2.date = r1.date) :
    Option.map (fun s => (s.start, s.endTime)) (parseOneSession r1).toOption =
      Option.map (fun s => (s.start, s.endTime)) (parseOneSession r2).toOption := by
  have he1 : _extract_start_end_times r1 = .ok (a, b) := by
    unfold _extract_start_end_times
    rw [h1, ht]
    simpa using hr
  have he2 : _extract_start_end_times r2 = .ok (a, b) := by
    unfold _extract_start_end_times
    rw [h2s, h2e]
    simp
  unfold parseOneSession
  rw [he1, he2, hd]
  cases hdate : r1.date with
  | none => rfl
  | some dstr =>
    dsimp only
    cases hpd : parseDate dstr with
    | none => rfl
    | some ymd =>
      obtain ⟨y, m, d⟩ := ymd
      dsimp only
      cases hpa : parseHM a with
      | none => rfl
      | some hm1 =>
        obtain ⟨ah, am⟩ := hm1
        dsimp only
        cases hpb : parseHM b with
        | none => rfl
        | some hm2 =>
          obtain ⟨bh, bm⟩ := hm2
          rfl

theorem c7_time_forms_equivalent_witness :
    Option.map (fun s => (s.start, s.endTime)) (parseOneSession rawEarly).toOption =
      Option.map (fun s => (s.start, s.endTime)) (parseOneSession rawSplit).toOption :=
  c7_time_forms_equivalent rawEarly rawSplit ("09:00 - 10:30".toList)
    ("09:00".toList) ("10:30".toList) rfl rfl rfl rfl rfl rfl

theorem pyStrip_all_space (s : Str) (h : ∀ c ∈ s, pyIsSpace c = true) :
    pyStrip s = [] := by
  unfold pyStrip
  have h1 : s.dropWhile pyIsSpace = [] := by
    rw [List.dropWhile_eq_nil_iff]
    exact h
  rw [h1]
  rfl

theorem findSessionsGo_eq_filter (q : Str) (l : List Session) :
    findSessionsGo q l = l.filter (matchesQuery q) := by
  induction l with
  | nil => rfl
  | cons s rest ih =>
    by_cases hm : matchesQuery q s = true
    · simp [findSessionsGo, List.filter_cons, hm, ih]
    · simp [findSessionsGo, List.filter_cons, hm, ih]

/-- C8 (amended): a whitespace-only (or empty) query returns the empty
list; otherwise the result is exactly the sessions whose lowercased
lecture, lowercased label, or display date contains the
stripped-then-lowercased query — the code strips the query before
matching — in the course's session order. -/
theorem c8_query_semantics (course : CourseData) (query : Str) :
    ((∀ c ∈ query, pyIsSpace c = true) → find_sessions_by_query course query = []) ∧
      (lowerStr (pyStrip query) ≠ [] →
        find_sessions_by_query course query =
          course.sessions.filter (matchesQuery (lowerStr (pyStrip query)))) ∧
      (∀ s, s ∈ find_sessions_by_query course query ↔
        s ∈ course.sessions ∧ lowerStr (pyStrip query) ≠ [] ∧
          matchesQuery (lowerStr (pyStrip query)) s = true) ∧
      (find_sessions_by_query course query).Sublist course.sessions := by
  have hfilter := findSessionsGo_eq_filter (lowerStr (pyStrip query)) course.sessions
  refine ⟨?_, ?_, ?_, ?_⟩
  · intro hws
    have hnil : pyStrip query = [] := pyStrip_all_space query hws
    simp [find_sessions_by_query, hnil, lowerStr]
  · intro hne
    unfold find_sessions_by_query
    rw [if_neg (by simpa [List.isEmpty_iff] using hne)]
    exact hfilter
  · intro s
    unfold find_sessions_by_query
    by_cases hq : (lowerStr (pyStrip query)).isEmpty = true
    · rw [if_pos hq]
      simp [List.isEmpty_iff.mp hq]
    · rw [if_neg hq]
      rw [hfilter]
      have hne : lowerStr (pyStrip query) ≠ [] := by
        simpa [List.isEmpty_iff] using hq
      simp only [List.mem_filter]
      constructor
      · rintro ⟨hmem, hmatch⟩
        exact ⟨hmem, hne, hmatch⟩
      · rintro ⟨hmem, -, hmatch⟩
        exact ⟨hmem, hmatch⟩
  · unfold find_sessions_by_query
    by_cases hq : (lowerStr (pyStrip query)).isEmpty = true
    · rw [if_pos hq]
      exact List.nil_sublist _
    · rw [if_neg hq, hfilter]
      exact List.filter_sublist _

/-- C8 counterexample: the query with surrounding whitespace is neither
empty nor whitespace-only, its lowercased form is a substring of none of
the three fields, yet the session is returned — the code matches against
the stripped query, not the query itself. -/
theorem c8_query_counterexample :
    find_sessions_by_query courseQuery qryPadded = [sessQuery] ∧
      qryPadded.all pyIsSpace = false ∧
      strContains (lowerStr qryPadded) (lowerStr sessQuery.lecture) = false ∧
      strContains (lowerStr qryPadded) (lowerStr sessQuery.session_label) = false ∧
      strContains (lowerStr qryPadded) (display_date sessQuery) = false :=
  ⟨rfl, rfl, rfl, rfl, rfl⟩

theorem c8_query_semantics_witness :
    find_sessions_by_query courseQuery ("   ".toList) = [] ∧
      find_sessions_by_query courseQuery ("lec".toList) =
        courseQuery.sessions.filter
          (matchesQuery (lowerStr (pyStrip ("lec".toList)))) :=
  ⟨(c8_query_semantics courseQuery ("   ".toList)).1 (by decide),
    (c8_query_semantics courseQuery ("lec".toList)).2.1 (by decide)⟩

theorem parseOne_same_date (raw : RawSession) (s : Session)
    (h : parseOneSession raw = .ok s) :
    s.endTime.year = s.start.year ∧ s.endTime.month = s.start.month ∧
      s.endTime.day = s.start.day := by
  unfold parseOneSession at h
  cases he : _extract_start_end_times raw with
  | error e => rw [he] at h; cases h
  | ok ab =>
    obtain ⟨p1, p2⟩ := ab
    rw [he] at h
    dsimp only at h
    cases hd : raw.date with
    | none => rw [hd] at h; cases h
    | some dstr =>
      rw [hd] at h
      dsimp only at h
      cases hpd : parseDate dstr with
      | none => rw [hpd] at h; cases h
      | some ymd =>
        obtain ⟨y, m, d⟩ := ymd
        rw [hpd] at h
        dsimp only at h
        cases h1 : parseHM p1 with
        | none => rw [h1] at h; cases h
        | some hm1 =>
          obtain ⟨sh, sm⟩ := hm1
          rw [h1] at h
          dsimp only at h
          cases h2 : parseHM p2 with
          | none => rw [h2] at h; cases h
          | some hm2 =>
            obtain ⟨eh, em⟩ := hm2
            rw [h2] at h
            dsimp only at h
            cases h
            exact ⟨rfl, rfl, rfl⟩

theorem parseSessionsGo_mem (payload : List RawSession) :
    ∀ ss : List Session, parseSessionsGo payload = .ok ss →
      ∀ s ∈ ss, ∃ raw, parseOneSession raw = .ok s := by
  induction payload with
  | nil =>
    intro ss h s hs
    injection h with h
    subst h
    exact absurd hs (by simp)
  | cons raw rest ih =>
    intro ss h s hs
    unfold parseSessionsGo at h
    cases hp : parseOneSession raw with
    | error e => rw [hp] at h; cases h
    | ok s0 =>
      rw [hp] at h
      dsimp only at h
      cases hg : parseSessionsGo rest with
      | error e => rw [hg] at h; cases h
      | ok ss0 =>
        rw [hg] at h
        dsimp only at h
        cases h
        rcases List.mem_cons.mp hs with rfl | hs'
        · exact ⟨raw, hp⟩
        · exact ih ss0 hg s hs'

/-- C9: every parsed session's `end` lies on the same calendar date as its
`start` (the entry's `date`), and acceptance of an entry depends only on
its pieces parsing — no ordering of end against start is enforced, so an
entry whose end time-of-day precedes its start is accepted. -/
theorem c9_same_date_no_order_check :
    (∀ payload l, _parse_sessions_list payload = .ok l →
      ∀ s ∈ l, s.endTime.year = s.start.year ∧ s.endTime.month = s.start.month ∧
        s.endTime.day = s.start.day) ∧
      (∀ (raw : RawSession) (p1 p2 dstr : Str) (ymd : Nat × Nat × Nat)
          (hm1 hm2 : Nat × Nat),
        _extract_start_end_times raw = .ok (p1, p2) → raw.date = some dstr →
        parseDate dstr = some ymd → parseHM p1 = some hm1 → parseHM p2 = some hm2 →
        (_parse_sessions_list [raw]).isOk = true) := by
  constructor
  · intro payload l h s hs
    unfold _parse_sessions_list at h
    cases hg : parseSessionsGo payload with
    | error e => rw [hg] at h; cases h
    | ok ss =>
      rw [hg] at h
      injection h with h
      subst h
      have hs' : s ∈ ss := (List.mem_insertionSort startLe).mp hs
      obtain ⟨raw, hraw⟩ := parseSessionsGo_mem payload ss hg s hs'
      exact parseOne_same_date raw s hraw
  · intro raw p1 p2 dstr ymd hm1 hm2 he hd hpd h1 h2
    obtain ⟨y, m, d⟩ := ymd
    obtain ⟨sh, sm⟩ := hm1
    obtain ⟨eh, em⟩ := hm2
    cases hp : parseOneSession raw with
    | error e =>
      exfalso
      unfold parseOneSession at hp
      rw [he] at hp
      dsimp only at hp
      rw [hd] at hp
      dsimp only at hp
      rw [hpd] at hp
      dsimp only at hp
      rw [h1] at hp
      dsimp only at hp
      rw [h2] at hp
      dsimp only at hp
      cases hp
    | ok s0 =>
      simp only [_parse_sessions_list, parseSessionsGo, hp]
      rfl

theorem c9_same_date_no_order_check_witness :
    (_parse_sessions_list [rawBackwards]).isOk = true ∧
      (sessBackwards.endTime.year = sessBackwards.start.year ∧
        sessBackwards.endTime.month = sessBackwards.start.month ∧
        sessBackwards.endTime.day = sessBackwards.start.day) ∧
      _parse_sessions_list [rawBackwards] = .ok [sessBackwards] ∧
      instant sessBackwards.endTime < instant sessBackwards.start :=
  ⟨c9_same_date_no_order_check.2 rawBackwards ("10:00".toList) ("09:00".toList)
      ("2025-01-02".toList) (2025, 1, 2) (10, 0) (9, 0) rfl rfl rfl rfl rfl,
    c9_same_date_no_order_check.1 [rawBackwards] [sessBackwards] rfl sessBackwards
      (List.mem_singleton.mpr rfl),
    rfl, by decide⟩

theorem is_active_map_upsert (t : List SubRow) (u c : Int)
    (h : t.any (fun r => r.user == u) = true) :
    is_active
        (t.map (fun r => if r.user == u then { r with chat := c, active := true } else r))
        u = true := by
  obtain ⟨r0, hr0, hru⟩ := List.any_eq_true.mp h
  have hru2 : r0.user = u := by simpa using hru
  unfold is_active
  rw [List.any_eq_true]
  refine ⟨if r0.user == u then { r0 with chat := c, active := true } else r0,
    List.mem_map.mpr ⟨r0, hr0, rfl⟩, ?_⟩
  rw [if_pos hru]
  simp [hru2]

theorem chat_mem_map_upsert (t : List SubRow) (u c : Int)
    (h : t.any (fun r => r.user == u) = true) :
    c ∈ active_chat_ids
        (t.map (fun r => if r.user == u then { r with chat := c, active := true } else r)) := by
  obtain ⟨r0, hr0, hru⟩ := List.any_eq_true.mp h
  unfold active_chat_ids
  refine List.mem_map.mpr
    ⟨if r0.user == u then { r0 with chat := c, active := true } else r0, ?_, ?_⟩
  · refine List.mem_filter.mpr ⟨List.mem_map.mpr ⟨r0, hr0, rfl⟩, ?_⟩
    rw [if_pos hru]
  · rw [if_pos hru]

theorem subscribe_is_active (s : List SubRow) (u c : Int) :
    is_active (subscribe s u c) u = true := by
  unfold subscribe
  by_cases hany : s.any (fun r => r.user == u) = true
  · rw [if_pos hany]
    exact is_active_map_upsert s u c hany
  · rw [if_neg hany]
    simp [is_active, List.any_append]

theorem subscribe_chat_mem (s : List SubRow) (u c : Int) :
    c ∈ active_chat_ids (subscribe s u c) := by
  unfold subscribe
  by_cases hany : s.any (fun r => r.user == u) = true
  · rw [if_pos hany]
    exact chat_mem_map_upsert s u c hany
  · rw [if_neg hany]
    simp [active_chat_ids, List.filter_append]

theorem unsubscribe_is_active (s : List SubRow) (u : Int) :
    is_active (unsubscribe s u) u = false := by
  induction s with
  | nil => rfl
  | cons r t ih =>
    simp only [unsubscribe, List.map_cons] at ih ⊢
    simp only [is_active, List.any_cons, Bool.or_eq_false_iff] at ih ⊢
    refine ⟨?_, ih⟩
    by_cases hr : (r.user == u) = true
    · simp [hr]
    · simp [hr]

theorem unsubscribe_noop (s : List SubRow) (u : Int)
    (h : ∀ r ∈ s, (r.user == u) = false) :
    unsubscribe s u = s := by
  induction s with
  | nil => rfl
  | cons r t ih =>
    simp only [unsubscribe, List.map_cons] at ih ⊢
    rw [if_neg (by simp [h r (List.mem_cons_self r t)]),
      ih (fun x hx => h x (List.mem_cons_of_mem r hx))]

theorem mem_subscribe (s : List SubRow) (u c : Int) (r1 : SubRow)
    (h : r1 ∈ subscribe s u c) (hne : (r1.user == u) = false) : r1 ∈ s := by
  unfold subscribe at h
  by_cases hany : s.any (fun r => r.user == u) = true
  · rw [if_pos hany] at h
    obtain ⟨r0, hr0, heq⟩ := List.mem_map.mp h
    by_cases h0 : (r0.user == u) = true
    · rw [if_pos h0] at heq
      exfalso
      have : r1.user = r0.user := by rw [← heq]
      rw [this] at hne
      rw [h0] at hne
      cases hne
    · rw [if_neg h0] at heq
      rw [← heq]
      exact hr0
  · rw [if_neg hany] at h
    rcases List.mem_append.mp h with h1 | h1
    · exact h1
    · exfalso
      have : r1 = ⟨u, c, true⟩ := by simpa using h1
      rw [this] at hne
      simp at hne

theorem unsubscribe_chat_absent (s : List SubRow) (u c : Int)
    (h : ∀ r ∈ s, r.chat = c → r.user = u) :
    c ∉ active_chat_ids (unsubscribe (subscribe s u c) u) := by
  intro hc
  simp only [active_chat_ids, List.mem_map, List.mem_filter] at hc
  obtain ⟨r2, ⟨hr2mem, hr2act⟩, hr2chat⟩ := hc
  simp only [unsubscribe, List.mem_map] at hr2mem
  obtain ⟨r1, hr1mem, hr1eq⟩ := hr2mem
  by_cases hu : (r1.user == u) = true
  · rw [if_pos hu] at hr1eq
    rw [← hr1eq] at hr2act
    cases hr2act
  · rw [if_neg hu] at hr1eq
    subst hr1eq
    have hr1s : r1 ∈ s := mem_subscribe s u c r1 hr1mem (Bool.eq_false_iff.mpr hu)
    have := h r1 hr1s hr2chat
    rw [this] at hu
    simp at hu

/-- C10 (amended): subscribing activates the user and exposes the chat id;
unsubscribing deactivates the user, and the chat id disappears from the
active set provided no other subscriber row carries the same chat id (the
store is keyed by user, so a shared chat id of another active user
remains); the row is retained, so a later subscribe reactivates with the
new chat id; unsubscribing a never-subscribed user leaves the store
unchanged. -/
theorem c10_store_lifecycle (s : List SubRow) (u c c2 : Int) :
    is_active (subscribe s u c) u = true ∧
      c ∈ active_chat_ids (subscribe s u c) ∧
      is_active (unsubscribe s u) u = false ∧
      ((∀ r ∈ s, r.chat = c → r.user = u) →
        c ∉ active_chat_ids (unsubscribe (subscribe s u c) u)) ∧
      is_active (subscribe (unsubscribe s u) u c2) u = true ∧
      c2 ∈ active_chat_ids (subscribe (unsubscribe s u) u c2) ∧
      ((∀ r ∈ s, (r.user == u) = false) → unsubscribe s u = s) :=
  ⟨subscribe_is_active s u c, subscribe_chat_mem s u c,
    unsubscribe_is_active s u,
    fun h => unsubscribe_chat_absent s u c h,
    subscribe_is_active (unsubscribe s u) u c2,
    subscribe_chat_mem (unsubscribe s u) u c2,
    fun h => unsubscribe_noop s u h⟩

/-- C10 counterexample: two users subscribed with the same chat id; after
`unsubscribe(1)`, user 1 is inactive and its row keeps chat id 5, yet 5 is
still present in `active_chat_ids()` through user 2's row — the claim's
"u's chat ID is absent" fails when the chat id is shared. -/
theorem c10_shared_chat_counterexample :
    is_active (unsubscribe (subscribe (subscribe [] 1 5) 2 5) 1) 1 = false ∧
      unsubscribe (subscribe (subscribe [] 1 5) 2 5) 1 =
        [⟨1, 5, false⟩, ⟨2, 5, true⟩] ∧
      (5 : Int) ∈ active_chat_ids (unsubscribe (subscribe (subscribe [] 1 5) 2 5) 1) := by
  refine ⟨rfl, rfl, ?_⟩
  decide

theorem c10_store_lifecycle_witness :
    is_active (subscribe storeOther 1 5) 1 = true ∧
      (5 : Int) ∈ active_chat_ids (subscribe storeOther 1 5) ∧
      is_active (unsubscribe storeOther 1) 1 = false ∧
      (5 : Int) ∉ active_chat_ids (unsubscribe (subscribe storeOther 1 5) 1) ∧
      is_active (subscribe (unsubscribe storeOther 1) 1 7) 1 = true ∧
      (7 : Int) ∈ active_chat_ids (subscribe (unsubscribe storeOther 1) 1 7) ∧
      unsubscribe storeOther 1 = storeOther :=
  ⟨(c10_store_lifecycle storeOther 1 5 7).1,
    (c10_store_lifecycle storeOther 1 5 7).2.1,
    (c10_store_lifecycle storeOther 1 5 7).2.2.1,
    (c10_store_lifecycle storeOther 1 5 7).2.2.2.1 (by decide),
    (c10_store_lifecycle storeOther 1 5 7).2.2.2.2.1,
    (c10_store_lifecycle storeOther 1 5 7).2.2.2.2.2.1,
    (c10_store_lifecycle storeOther 1 5 7).2.2.2.2.2.2 (by decide)⟩
